import Mathlib

/-!
Verification of the High-Performance React Hooks Library.

Shallow embedding of the repository's hooks and proofs about them:

* `useFetch` (src/unnamed/part_000): a data fetcher with abort-based request
  supersession, an `Idempotency-Key` header on POST requests, and a sorted
  query-string builder.  The hook's render-time state (`data`, `loading`,
  `error`), its `activeController` ref and the set of aborted controllers are
  captured in `UseFetch.HookState`; the asynchronous life of a request is
  split into a `startFetch` step (the synchronous prefix of `fetchData` up to
  the `fetch` call) and a `completeFetch` step (the continuation that runs
  when the response settles), driven by an explicit event trace.
* `useThrottle` (src/src/hooks/useThrottle.ts): embedded as a state machine
  over (throttledValue, lastUpdated ref, pending timer), driven by effect
  runs (`valueChange`) and timer callbacks (`timerFire`) carrying explicit
  clock readings.
* `useDebounce`: documented in the readme but its implementation file is not
  among the sources; it is modelled from the spec.
-/

namespace UseFetch

/-- HTTP method, from the `TUseFetchOptions.method` union type. -/
inductive Method
  | GET | POST | PUT | DELETE
deriving DecidableEq

/-- Options record `TUseFetchOptions`: `method` defaults to GET (destructured
default in `fetchData`), `body` is the JSON payload (the source applies
`JSON.stringify`, which we keep abstract by storing the resulting string),
`headers` the caller-supplied header record, `immediate` the tri-state
`boolean | undefined` option. -/
structure TUseFetchOptions where
  method : Method := .GET
  body : Option String := none
  headers : List (String × String) := []
  immediate : Option Bool := none

/-- Association-list lookup of a header/param key: first binding wins,
mirroring lookup in a JS object where keys are unique. -/
def lookupStr (k : String) : List (String × String) → Option String
  | [] => none
  | p :: rest => if p.1 = k then some p.2 else lookupStr k rest

/-- Assignment of one property on a JS object (object spread, or
`finalHeaders[k] = v`): an existing key keeps its position but gets the new
value, a fresh key is appended. -/
def setHeader (hs : List (String × String)) (k v : String) : List (String × String) :=
  if hs.any (fun p => p.1 = k) then
    hs.map (fun p => if p.1 = k then (k, v) else p)
  else
    hs ++ [(k, v)]

/-- The `finalHeaders` computation of `fetchData`: start from the record
holding only `Content-Type: application/json`, spread the user headers over
it, and for a POST request set `Idempotency-Key` to the generated UUID. -/
def buildHeaders (userHeaders : List (String × String)) (method : Method)
    (uuid : String) : List (String × String) :=
  let base := [("Content-Type", "application/json")]
  let merged := userHeaders.foldl (fun acc p => setHeader acc p.1 p.2) base
  if method = .POST then setHeader merged "Idempotency-Key" uuid else merged

/-- One hex digit, uppercase, as `URLSearchParams` percent-encodes. -/
def hexDigit (n : Nat) : Char :=
  if n < 10 then Char.ofNat (48 + n) else Char.ofNat (55 + n)

/-- Percent-escape `%XX` of one byte. -/
def percentByte (b : UInt8) : String :=
  "%" ++ String.mk [hexDigit (b.toNat / 16), hexDigit (b.toNat % 16)]

/-- Bytes serialised verbatim by `application/x-www-form-urlencoded`:
ASCII alphanumerics and `*`, `-`, `.`, `_`. -/
def formUnreserved (b : UInt8) : Bool :=
  (48 ≤ b.toNat && b.toNat ≤ 57) || (65 ≤ b.toNat && b.toNat ≤ 90) ||
    (97 ≤ b.toNat && b.toNat ≤ 122) ||
    (b.toNat == 42 || b.toNat == 45 || b.toNat == 46 || b.toNat == 95)

/-- Serialisation of one component in `application/x-www-form-urlencoded`
form, as `URLSearchParams.toString` performs it: UTF-8 bytes, unreserved
bytes kept, space as `+`, everything else percent-escaped. -/
def formEncode (s : String) : String :=
  String.join (s.toUTF8.toList.map (fun b =>
    if formUnreserved b then String.singleton (Char.ofNat b.toNat)
    else if b.toNat == 32 then "+"
    else percentByte b))

/-- Keys of the params record in ascending order: `Object.keys(params).sort()`. -/
def queryKeys (ps : List (String × String)) : List String :=
  (ps.map Prod.fst).insertionSort (fun a b => a ≤ b)

/-- The `queryString` memo: empty for a null/absent params record, otherwise
the sorted keys appended to a `URLSearchParams` and serialised.  A key coming
from `Object.keys(params)` is always present in the record, so the `getD ""`
default on the lookup is never exercised for a genuine record. -/
def queryString (params : Option (List (String × String))) : String :=
  match params with
  | none => ""
  | some ps =>
      String.intercalate "&"
        ((queryKeys ps).map (fun k =>
          formEncode k ++ "=" ++ formEncode ((lookupStr k ps).getD "")))

/-- The `finalUrl` expression `queryString ? baseUrl + "?" + queryString :
baseUrl`; JS string truthiness is non-emptiness. -/
def finalUrl (baseUrl : String) (qs : String) : String :=
  if qs ≠ "" then baseUrl ++ "?" ++ qs else baseUrl

/-- One outgoing request as passed to `fetch`. -/
structure Request where
  url : String
  method : Method
  headers : List (String × String)
  body : Option String
deriving DecidableEq

/-- The hook's configuration for one mounted instance: `baseUrl`, `params`,
`options`, plus the entropy stream behind `crypto.randomUUID()` — the n-th
call to `generateUUID` returns `uuids n`. -/
structure FetchConfig where
  baseUrl : String
  params : Option (List (String × String))
  options : TUseFetchOptions
  uuids : Nat → String

/-- How a request settles: a parsed JSON body, a non-ok HTTP response (the
`!response.ok` throw), the `AbortError` rejection of an aborted fetch, or any
other error. -/
inductive Outcome
  | ok (result : String)
  | httpError (status : Nat) (statusText : String)
  | abortError
  | otherError (msg : String)

/-- Scheduler events for one hook instance: the mount effect, a user call of
`refetch`, the asynchronous completion of the request owned by controller
`cid`, and the unmount cleanup. -/
inductive FetchEvent
  | mount
  | refetch
  | complete (cid : Nat) (outcome : Outcome)
  | unmount

/-- The hook state: the three `useState` cells, the `activeController` ref
(by controller id), the set of controllers on which `abort()` has been
called, the id for the next `new AbortController()`, the count of
`generateUUID` calls made so far, and the log of requests handed to
`fetch`. -/
structure HookState where
  data : Option String
  loading : Bool
  error : Option String
  activeController : Option Nat
  aborted : List Nat
  nextId : Nat
  uuidCount : Nat
  requests : List Request

/-- Initial state after the first render: `data = null`, `loading = false`,
`error = null`, no controller. -/
def initState : HookState :=
  { data := none, loading := false, error := none, activeController := none,
    aborted := [], nextId := 0, uuidCount := 0, requests := [] }

/-- The synchronous prefix of `fetchData`: abort any existing controller,
install a fresh one, set `loading`/`error`, build the headers (drawing a
UUID for a POST) and the URL, and issue the request. -/
def startFetch (cfg : FetchConfig) (s : HookState) : HookState :=
  let s :=
    match s.activeController with
    | some a => { s with aborted := a :: s.aborted }
    | none => s
  let cid := s.nextId
  let method := cfg.options.method
  let uuid := cfg.uuids s.uuidCount
  let hdrs := buildHeaders cfg.options.headers method uuid
  let req : Request :=
    { url := finalUrl cfg.baseUrl (queryString cfg.params), method := method,
      headers := hdrs, body := cfg.options.body }
  { s with
    activeController := some cid, nextId := cid + 1,
    loading := true, error := none,
    uuidCount := if method = .POST then s.uuidCount + 1 else s.uuidCount,
    requests := s.requests ++ [req] }

/-- The continuation of `fetchData` once the request of controller `cid`
settles: on success `setData` guarded by `!currentSignal.aborted`; on a
non-ok response the thrown `Error: <status> <statusText>` reaches the catch
(its name is "Error", not "AbortError") and is written to `error`; an
`AbortError` is swallowed; the `finally` clears `loading` only when the
signal is not aborted. -/
def completeFetch (s : HookState) (cid : Nat) (o : Outcome) : HookState :=
  let isAborted := cid ∈ s.aborted
  let s1 :=
    match o with
    | .ok result => if isAborted then s else { s with data := some result }
    | .httpError st stx =>
        { s with error := some ("Error: " ++ toString st ++ " " ++ stx) }
    | .abortError => s
    | .otherError msg => { s with error := some msg }
  if isAborted then s1 else { s1 with loading := false }

/-- One scheduler step.  The mount effect runs `fetchData` exactly when
`options.immediate !== false`; its cleanup aborts and clears the active
controller. -/
def stepFetch (cfg : FetchConfig) (s : HookState) : FetchEvent → HookState
  | .mount => if cfg.options.immediate ≠ some false then startFetch cfg s else s
  | .refetch => startFetch cfg s
  | .complete cid o => completeFetch s cid o
  | .unmount =>
      match s.activeController with
      | some a => { s with aborted := a :: s.aborted, activeController := none }
      | none => s

/-- Run an event trace from the initial state. -/
def runFetch (cfg : FetchConfig) (es : List FetchEvent) : HookState :=
  es.foldl (stepFetch cfg) initState

/-- Controller bookkeeping invariant: issued ids are below `nextId`, the
active controller (if any) is an issued, non-aborted id, and every issued id
other than the active one has been aborted. -/
def Inv (s : HookState) : Prop :=
  (∀ x ∈ s.aborted, x < s.nextId) ∧
  (∀ a, s.activeController = some a → a < s.nextId) ∧
  (∀ cid, cid < s.nextId → s.activeController ≠ some cid → cid ∈ s.aborted) ∧
  (∀ a, s.activeController = some a → a ∉ s.aborted)

/-- A GET instance as in the readme example, used to instantiate theorems at
a concrete input. -/
def cfgGET : FetchConfig :=
  { baseUrl := "/api/transactions", params := none, options := {},
    uuids := fun n => "uuid-" ++ toString n }

/-- A PUT instance: a mutating method other than POST. -/
def cfgPUT : FetchConfig :=
  { baseUrl := "/api/item", params := none,
    options := { method := .PUT, body := some "1", immediate := some false },
    uuids := fun n => "uuid-" ++ toString n }

/-- A POST instance as in the readme example (`/api/pay` with
`immediate: false`), with an injective entropy stream standing for the
successive values returned by `crypto.randomUUID()`. -/
def cfgPOST : FetchConfig :=
  { baseUrl := "/api/pay", params := none,
    options := { method := .POST, body := some "1", immediate := some false },
    uuids := fun n => toString n }

end UseFetch

namespace UseThrottle

variable {V : Type}

/-- State of one `useThrottle` instance: the `throttledValue` state cell, the
`lastUpdated` ref, and the pending `setTimeout` (absolute fire time together
with the `value` captured by the scheduled callback), if any. -/
structure ThrottleState (V : Type) where
  throttledValue : V
  lastUpdated : Nat
  pending : Option (Nat × V)

/-- Events driving a `useThrottle` instance: an effect run triggered by a new
`value` (after the cleanup of the previous effect cleared its timer), or the
firing of the scheduled timer callback.  `now` is the reading of `Date.now()`
at that moment. -/
inductive ThrottleEvent (V : Type)
  | valueChange (now : Nat) (value : V)
  | timerFire (now : Nat)

/-- State at mount: `useState(value)` seeds the throttled value and the
`lastUpdated` ref is initialised with `Date.now()`. -/
def initThrottle (mountTime : Nat) (value : V) : ThrottleState V :=
  { throttledValue := value, lastUpdated := mountTime, pending := none }

/-- One step of the hook.  An effect run computes `timeSinceLastUpdate`; at or
past the interval it updates the value and the ref immediately, otherwise it
schedules a timer for the remainder (the cleanup of the previous effect has
already cleared any pending timer, which the `valueChange` branch reflects by
overwriting `pending`).  A timer callback updates the value and sets the ref
to the fire-time reading of `Date.now()`. -/
def stepThrottle (interval : Nat) (s : ThrottleState V) : ThrottleEvent V → ThrottleState V
  | .valueChange now value =>
      let timeSinceLastUpdate := now - s.lastUpdated
      if interval ≤ timeSinceLastUpdate then
        { throttledValue := value, lastUpdated := now, pending := none }
      else
        { s with pending := some (now + (interval - timeSinceLastUpdate), value) }
  | .timerFire now =>
      match s.pending with
      | some (_, v) => { throttledValue := v, lastUpdated := now, pending := none }
      | none => s

/-- Admissible traces: clock readings never decrease, and a timer callback
only fires while scheduled and no earlier than its scheduled time (a cleared
`setTimeout` never runs, and one never runs before its delay elapses). -/
def throttleValid (interval : Nat) : ThrottleState V → Nat → List (ThrottleEvent V) → Bool
  | _, _, [] => true
  | s, t, .valueChange now value :: es =>
      decide (t ≤ now) &&
        throttleValid interval (stepThrottle interval s (.valueChange now value)) now es
  | s, t, .timerFire now :: es =>
      decide (t ≤ now) &&
        (match s.pending with
         | some (ft, _) => decide (ft ≤ now)
         | none => false) &&
        throttleValid interval (stepThrottle interval s (.timerFire now)) now es

/-- Run a trace, returning the final state and the times of every
`setThrottledValue` call, in order. -/
def runThrottle (interval : Nat) (s : ThrottleState V) :
    List (ThrottleEvent V) → ThrottleState V × List Nat
  | [] => (s, [])
  | e :: es =>
      let rest := runThrottle interval (stepThrottle interval s e) es
      match e with
      | .valueChange now _ =>
          if interval ≤ now - s.lastUpdated then (rest.1, now :: rest.2) else rest
      | .timerFire now =>
          match s.pending with
          | some _ => (rest.1, now :: rest.2)
          | none => rest

end UseThrottle

namespace UseDebounce

variable {V : Type}

/-- Modelled from the spec: the readme documents a `useDebounce` hook ("Only
updates 500ms after the user STOPS typing") but its implementation file is
not among the sources.  State of one instance: the debounced value cell and
the pending timer, recorded as the time of the input that scheduled it
together with its value; the timer is due `delay` milliseconds after that
input. -/
structure DebounceState (V : Type) where
  debouncedValue : V
  pending : Option (Nat × V)

/-- Events driving a `useDebounce` instance: a new input value arriving at
clock reading `now` (the effect re-run whose cleanup clears the previous
timer and schedules a fresh one), or the firing of the scheduled timer. -/
inductive DebounceEvent (V : Type)
  | valueChange (now : Nat) (value : V)
  | timerFire (now : Nat)

/-- Modelled from the spec: mount seeds the debounced value; no timer is
pending. -/
def initDebounce (value : V) : DebounceState V :=
  { debouncedValue := value, pending := none }

/-- Modelled from the spec: every new input clears any pending timer and
schedules a new one for `delay` milliseconds later (the wait restarts); when
the timer fires the captured value is propagated. -/
def stepDebounce (s : DebounceState V) : DebounceEvent V → DebounceState V
  | .valueChange now value => { s with pending := some (now, value) }
  | .timerFire _ =>
      match s.pending with
      | some (_, v) => { debouncedValue := v, pending := none }
      | none => s

/-- Admissible traces: clock readings never decrease, and the timer fires
only while scheduled and no earlier than `delay` after the input that
scheduled it. -/
def debounceValid (delay : Nat) : DebounceState V → Nat → List (DebounceEvent V) → Bool
  | _, _, [] => true
  | s, t, .valueChange now value :: es =>
      decide (t ≤ now) && debounceValid delay (stepDebounce s (.valueChange now value)) now es
  | s, t, .timerFire now :: es =>
      decide (t ≤ now) &&
        (match s.pending with
         | some (t0, _) => decide (t0 + delay ≤ now)
         | none => false) &&
        debounceValid delay (stepDebounce s (.timerFire now)) now es

/-- Run a trace, returning the final state and, for every update of the
debounced value, the triple (time of the input that scheduled it, time of the
update, value propagated). -/
def runDebounce (s : DebounceState V) :
    List (DebounceEvent V) → DebounceState V × List (Nat × Nat × V)
  | [] => (s, [])
  | e :: es =>
      let rest := runDebounce (stepDebounce s e) es
      match e with
      | .valueChange _ _ => rest
      | .timerFire now =>
          match s.pending with
          | some (t0, v) => (rest.1, (t0, now, v) :: rest.2)
          | none => rest

/-- The input events of a trace, as (time, value) pairs in order. -/
def inputsOf : List (DebounceEvent V) → List (Nat × V)
  | [] => []
  | .valueChange now v :: es => (now, v) :: inputsOf es
  | .timerFire _ :: es => inputsOf es

end UseDebounce

namespace UseFetch

theorem inv_initState : Inv initState := by
  refine ⟨?_, ?_, ?_, ?_⟩ <;> simp [initState, Inv]

theorem inv_startFetch (cfg : FetchConfig) (s : HookState) (h : Inv s) :
    Inv (startFetch cfg s) := by
  obtain ⟨h1, h2, h3, h4⟩ := h
  cases hac : s.activeController with
  | none =>
      refine ⟨?_, ?_, ?_, ?_⟩ <;> simp only [startFetch, hac]
      · intro x hx; exact Nat.lt_succ_of_lt (h1 x hx)
      · intro a ha; simp at ha; omega
      · intro cid hlt hne
        simp only [ne_eq, Option.some.injEq] at hne
        exact h3 cid (by omega) (by rw [hac]; simp)
      · intro a ha hmem
        simp at ha
        exact absurd (h1 a hmem) (by omega)
  | some a0 =>
      refine ⟨?_, ?_, ?_, ?_⟩ <;> simp only [startFetch, hac]
      · intro x hx
        simp only [List.mem_cons] at hx
        rcases hx with rfl | hx
        · exact Nat.lt_succ_of_lt (h2 x hac)
        · exact Nat.lt_succ_of_lt (h1 x hx)
      · intro a ha; simp at ha; omega
      · intro cid hlt hne
        simp only [ne_eq, Option.some.injEq] at hne
        simp only [List.mem_cons]
        by_cases hcid : cid = a0
        · exact Or.inl hcid
        · refine Or.inr (h3 cid (by omega) ?_)
          rw [hac]; simp only [ne_eq, Option.some.injEq]; omega
      · intro a ha hmem
        simp only [Option.some.injEq] at ha
        simp only [List.mem_cons] at hmem
        rcases hmem with h | h
        · exact absurd (h2 a0 hac) (by omega)
        · exact absurd (h1 a h) (by omega)

theorem completeFetch_aborted (s : HookState) (cid : Nat) (o : Outcome) :
    (completeFetch s cid o).aborted = s.aborted := by
  unfold completeFetch
  cases o <;> dsimp only <;> (try split) <;> (try split) <;> rfl

theorem completeFetch_active (s : HookState) (cid : Nat) (o : Outcome) :
    (completeFetch s cid o).activeController = s.activeController := by
  unfold completeFetch
  cases o <;> dsimp only <;> (try split) <;> (try split) <;> rfl

theorem completeFetch_nextId (s : HookState) (cid : Nat) (o : Outcome) :
    (completeFetch s cid o).nextId = s.nextId := by
  unfold completeFetch
  cases o <;> dsimp only <;> (try split) <;> (try split) <;> rfl

theorem completeFetch_requests (s : HookState) (cid : Nat) (o : Outcome) :
    (completeFetch s cid o).requests = s.requests := by
  unfold completeFetch
  cases o <;> dsimp only <;> (try split) <;> (try split) <;> rfl

theorem completeFetch_uuidCount (s : HookState) (cid : Nat) (o : Outcome) :
    (completeFetch s cid o).uuidCount = s.uuidCount := by
  unfold completeFetch
  cases o <;> dsimp only <;> (try split) <;> (try split) <;> rfl

theorem inv_stepFetch (cfg : FetchConfig) (s : HookState) (e : FetchEvent)
    (h : Inv s) : Inv (stepFetch cfg s e) := by
  obtain ⟨h1, h2, h3, h4⟩ := h
  cases e with
  | mount =>
      simp only [stepFetch]
      by_cases him : cfg.options.immediate ≠ some false
      · rw [if_pos him]; exact inv_startFetch cfg s ⟨h1, h2, h3, h4⟩
      · rw [if_neg him]; exact ⟨h1, h2, h3, h4⟩
  | refetch => exact inv_startFetch cfg s ⟨h1, h2, h3, h4⟩
  | complete cid o =>
      refine ⟨?_, ?_, ?_, ?_⟩ <;>
        simp only [stepFetch, completeFetch_aborted, completeFetch_active,
          completeFetch_nextId] <;> assumption
  | unmount =>
      simp only [stepFetch]
      cases hac : s.activeController with
      | none => exact ⟨h1, h2, h3, h4⟩
      | some a0 =>
          refine ⟨?_, ?_, ?_, ?_⟩
          · intro x hx
            simp only [List.mem_cons] at hx
            rcases hx with rfl | hx
            · exact h2 x hac
            · exact h1 x hx
          · intro a ha; simp at ha
          · intro cid hlt _
            simp only [List.mem_cons]
            by_cases hcid : cid = a0
            · exact Or.inl hcid
            · refine Or.inr (h3 cid hlt ?_)
              rw [hac]; simp only [ne_eq, Option.some.injEq]; omega
          · intro a ha; simp at ha

theorem inv_runFetch (cfg : FetchConfig) (es : List FetchEvent) :
    Inv (runFetch cfg es) := by
  suffices h : ∀ s, Inv s → Inv (es.foldl (stepFetch cfg) s) from h initState inv_initState
  induction es with
  | nil => intro s hs; exact hs
  | cons e es ih => intro s hs; exact ih _ (inv_stepFetch cfg s e hs)

theorem startFetch_aborted_of_active (cfg : FetchConfig) (s : HookState) (a : Nat)
    (ha : s.activeController = some a) :
    (startFetch cfg s).aborted = a :: s.aborted := by
  simp only [startFetch, ha]

theorem startFetch_requests (cfg : FetchConfig) (s : HookState) :
    (startFetch cfg s).requests = s.requests ++
      [{ url := finalUrl cfg.baseUrl (queryString cfg.params),
         method := cfg.options.method,
         headers := buildHeaders cfg.options.headers cfg.options.method
            (cfg.uuids s.uuidCount),
         body := cfg.options.body }] := by
  unfold startFetch
  cases hac : s.activeController <;> simp only [hac]

theorem startFetch_uuidCount (cfg : FetchConfig) (s : HookState) :
    (startFetch cfg s).uuidCount =
      if cfg.options.method = .POST then s.uuidCount + 1 else s.uuidCount := by
  unfold startFetch
  cases hac : s.activeController <;> simp only [hac]

theorem completeFetch_data_of_aborted (s : HookState) (cid : Nat) (o : Outcome)
    (hab : cid ∈ s.aborted) : (completeFetch s cid o).data = s.data := by
  unfold completeFetch
  cases o <;> simp [hab]

theorem completeFetch_data_changed (s : HookState) (cid : Nat) (o : Outcome)
    (h : (completeFetch s cid o).data ≠ s.data) : cid ∉ s.aborted := by
  intro hab
  exact h (completeFetch_data_of_aborted s cid o hab)

theorem completeFetch_httpError_not_aborted (s : HookState) (cid st : Nat)
    (stx : String) (hab : cid ∉ s.aborted) :
    (completeFetch s cid (.httpError st stx)).error
        = some ("Error: " ++ toString st ++ " " ++ stx) ∧
    (completeFetch s cid (.httpError st stx)).loading = false ∧
    (completeFetch s cid (.httpError st stx)).data = s.data := by
  unfold completeFetch
  simp [hab]

theorem completeFetch_abortError_error (s : HookState) (cid : Nat) :
    (completeFetch s cid .abortError).error = s.error := by
  unfold completeFetch
  by_cases hab : cid ∈ s.aborted <;> simp [hab]

/-- C1: whenever a new fetch is started (mount effect or `refetch`) the
previously active request's controller is aborted; a superseded request (one
that is no longer the active controller) never writes its result into `data`
when it completes; and `data` is only written by a completion whose signal is
not aborted at completion time. -/
theorem useFetch_supersession (cfg : FetchConfig) (es : List FetchEvent)
    (cid : Nat) (v : String) :
    (∀ a, (runFetch cfg es).activeController = some a →
        a ∈ (startFetch cfg (runFetch cfg es)).aborted) ∧
    (cid < (runFetch cfg es).nextId →
        (runFetch cfg es).activeController ≠ some cid →
        (stepFetch cfg (runFetch cfg es) (.complete cid (.ok v))).data
          = (runFetch cfg es).data) ∧
    (∀ o, (stepFetch cfg (runFetch cfg es) (.complete cid o)).data
          ≠ (runFetch cfg es).data → cid ∉ (runFetch cfg es).aborted) := by
  obtain ⟨h1, h2, h3, h4⟩ := inv_runFetch cfg es
  refine ⟨?_, ?_, ?_⟩
  · intro a ha
    rw [startFetch_aborted_of_active cfg _ a ha]
    exact List.mem_cons_self a _
  · intro hlt hne
    exact completeFetch_data_of_aborted _ cid _ (h3 cid hlt hne)
  · intro o h
    exact completeFetch_data_changed _ cid o h

/-- C1 witness: in the concrete trace mount-then-refetch, controller 0 has
been issued but is no longer active, and its late successful completion
leaves `data` untouched. -/
theorem useFetch_supersession_witness :
    0 < (runFetch cfgGET [.mount, .refetch]).nextId ∧
    (runFetch cfgGET [.mount, .refetch]).activeController ≠ some 0 ∧
    (stepFetch cfgGET (runFetch cfgGET [.mount, .refetch]) (.complete 0 (.ok "r"))).data
      = (runFetch cfgGET [.mount, .refetch]).data :=
  ⟨by decide, by decide,
    (useFetch_supersession cfgGET [.mount, .refetch] 0 "r").2.1 (by decide) (by decide)⟩

/-- C6: a non-superseded request completing with a non-ok HTTP response sets
`error` to the string "Error: <status> <statusText>", clears `loading`, and
leaves `data` unchanged; a request failing with an `AbortError` leaves
`error` unchanged. -/
theorem useFetch_error_handling (cfg : FetchConfig) (es : List FetchEvent)
    (cid st : Nat) (stx : String) :
    ((runFetch cfg es).activeController = some cid →
      (stepFetch cfg (runFetch cfg es) (.complete cid (.httpError st stx))).error
          = some ("Error: " ++ toString st ++ " " ++ stx) ∧
      (stepFetch cfg (runFetch cfg es) (.complete cid (.httpError st stx))).loading = false ∧
      (stepFetch cfg (runFetch cfg es) (.complete cid (.httpError st stx))).data
          = (runFetch cfg es).data) ∧
    (stepFetch cfg (runFetch cfg es) (.complete cid .abortError)).error
        = (runFetch cfg es).error := by
  obtain ⟨h1, h2, h3, h4⟩ := inv_runFetch cfg es
  refine ⟨?_, ?_⟩
  · intro hac
    exact completeFetch_httpError_not_aborted _ cid st stx (h4 cid hac)
  · exact completeFetch_abortError_error _ cid

/-- C6 witness: after one refetch the active controller is 0; a 404 response
yields the error string "Error: 404 Not Found", clears `loading`, and leaves
`data` untouched. -/
theorem useFetch_error_handling_witness :
    (runFetch cfgGET [.refetch]).activeController = some 0 ∧
    ((stepFetch cfgGET (runFetch cfgGET [.refetch])
        (.complete 0 (.httpError 404 "Not Found"))).error = some "Error: 404 Not Found" ∧
      (stepFetch cfgGET (runFetch cfgGET [.refetch])
        (.complete 0 (.httpError 404 "Not Found"))).loading = false ∧
      (stepFetch cfgGET (runFetch cfgGET [.refetch])
        (.complete 0 (.httpError 404 "Not Found"))).data
          = (runFetch cfgGET [.refetch]).data) :=
  ⟨by decide,
    (useFetch_error_handling cfgGET [.refetch] 0 404 "Not Found").1 (by decide)⟩

/-- C8: the mount effect issues a request exactly when
`options.immediate !== false` (an omitted option triggers the fetch);
`refetch` issues a request regardless of `immediate`; and the unmount cleanup
aborts the active request and clears the stored controller. -/
theorem useFetch_mount_refetch_unmount (cfg : FetchConfig) (es : List FetchEvent) :
    ((stepFetch cfg (runFetch cfg es) .mount).requests.length
        = (runFetch cfg es).requests.length + 1 ↔ cfg.options.immediate ≠ some false) ∧
    ((stepFetch cfg (runFetch cfg es) .refetch).requests.length
        = (runFetch cfg es).requests.length + 1) ∧
    (∀ a, (runFetch cfg es).activeController = some a →
      a ∈ (stepFetch cfg (runFetch cfg es) .unmount).aborted ∧
      (stepFetch cfg (runFetch cfg es) .unmount).activeController = none) := by
  refine ⟨?_, ?_, ?_⟩
  · constructor
    · intro hlen him
      rw [stepFetch, if_neg (by simpa using him)] at hlen
      omega
    · intro him
      rw [stepFetch, if_pos him, startFetch_requests]
      simp
  · rw [stepFetch, startFetch_requests]; simp
  · intro a ha
    simp only [stepFetch, ha]
    exact ⟨List.mem_cons_self a _, by trivial⟩

theorem lookup_setHeader_self (hs : List (String × String)) (k v : String) :
    lookupStr k (setHeader hs k v) = some v := by
  unfold setHeader
  by_cases h : hs.any (fun p => p.1 = k)
  · rw [if_pos h]
    induction hs with
    | nil => simp at h
    | cons p rest ih =>
        simp only [List.any_cons, Bool.or_eq_true, decide_eq_true_eq] at h
        simp only [List.map_cons]
        by_cases hp : p.1 = k
        · rw [if_pos hp]
          simp [lookupStr]
        · rw [if_neg hp]
          simp only [lookupStr, hp, if_false]
          exact ih (by
            rcases h with h | h
            · exact absurd h hp
            · simpa using h)
  · rw [if_neg h]
    induction hs with
    | nil => simp [lookupStr]
    | cons p rest ih =>
        simp only [List.any_cons, Bool.or_eq_true, decide_eq_true_eq, not_or] at h
        simp only [List.cons_append, lookupStr, h.1, if_false]
        exact ih (by simpa using h.2)

theorem lookup_setHeader_other (hs : List (String × String)) (k v k' : String)
    (hne : k' ≠ k) : lookupStr k' (setHeader hs k v) = lookupStr k' hs := by
  have hk : ¬ (k = k') := fun hh => hne hh.symm
  unfold setHeader
  by_cases h : hs.any (fun p => p.1 = k)
  · rw [if_pos h]
    clear h
    induction hs with
    | nil => rfl
    | cons p rest ih =>
        simp only [List.map_cons]
        by_cases hp : p.1 = k
        · rw [if_pos hp]
          have hp' : ¬ (p.1 = k') := by rw [hp]; exact hk
          simp only [lookupStr, hp', hk, if_false, ih]
        · rw [if_neg hp]
          simp only [lookupStr, ih]
  · rw [if_neg h]
    clear h
    induction hs with
    | nil => simp [lookupStr, hk]
    | cons p rest ih =>
        simp only [List.cons_append, lookupStr, List.append_eq, ih]

theorem lookup_buildHeaders_post (uh : List (String × String)) (u : String) :
    lookupStr "Idempotency-Key" (buildHeaders uh .POST u) = some u := by
  unfold buildHeaders
  simp only [reduceIte]
  exact lookup_setHeader_self _ _ u

theorem lookup_foldl_setHeader_of_absent (uh : List (String × String)) (k : String)
    (huh : ∀ p ∈ uh, p.1 ≠ k) :
    ∀ base : List (String × String), lookupStr k base = none →
      lookupStr k (uh.foldl (fun acc p => setHeader acc p.1 p.2) base) = none := by
  induction uh with
  | nil => intro base hb; simpa using hb
  | cons p rest ih =>
      intro base hb
      simp only [List.foldl_cons]
      refine ih (fun q hq => huh q (List.mem_cons_of_mem p hq)) _ ?_
      rw [lookup_setHeader_other base p.1 p.2 k
        (fun hh => huh p (List.mem_cons_self p rest) hh.symm)]
      exact hb

theorem lookup_buildHeaders_not_post (uh : List (String × String)) (m : Method)
    (u : String) (hm : m ≠ .POST) (huh : ∀ p ∈ uh, p.1 ≠ "Idempotency-Key") :
    lookupStr "Idempotency-Key" (buildHeaders uh m u) = none := by
  unfold buildHeaders
  rw [if_neg hm]
  refine lookup_foldl_setHeader_of_absent uh _ huh _ ?_
  simp [lookupStr]

theorem runFetch_requests_shape (cfg : FetchConfig) (es : List FetchEvent) :
    ∀ r ∈ (runFetch cfg es).requests, r.method = cfg.options.method ∧
      ∃ i, r.headers = buildHeaders cfg.options.headers cfg.options.method (cfg.uuids i) := by
  suffices h : ∀ s, (∀ r ∈ s.requests, r.method = cfg.options.method ∧
      ∃ i, r.headers = buildHeaders cfg.options.headers cfg.options.method (cfg.uuids i)) →
      ∀ r ∈ (es.foldl (stepFetch cfg) s).requests, r.method = cfg.options.method ∧
      ∃ i, r.headers = buildHeaders cfg.options.headers cfg.options.method (cfg.uuids i) by
    exact h initState (by simp [initState])
  induction es with
  | nil => intro s hs; exact hs
  | cons e es ih =>
      intro s hs
      refine ih _ ?_
      cases e with
      | mount =>
          simp only [stepFetch]
          by_cases him : cfg.options.immediate ≠ some false
          · rw [if_pos him, startFetch_requests]
            intro r hr
            rcases List.mem_append.1 hr with hr | hr
            · exact hs r hr
            · simp only [List.mem_singleton] at hr
              subst hr
              exact ⟨rfl, s.uuidCount, rfl⟩
          · rw [if_neg him]; exact hs
      | refetch =>
          simp only [stepFetch]
          rw [startFetch_requests]
          intro r hr
          rcases List.mem_append.1 hr with hr | hr
          · exact hs r hr
          · simp only [List.mem_singleton] at hr
            subst hr
            exact ⟨rfl, s.uuidCount, rfl⟩
      | complete cid o =>
          simp only [stepFetch]
          rw [completeFetch_requests]
          exact hs
      | unmount =>
          simp only [stepFetch]
          cases hac : s.activeController with
          | none => exact hs
          | some a => exact hs

/-- C2 counterexample: a PUT request (a mutating method) issued by the hook
carries no `Idempotency-Key` header — the source only attaches the key when
`method === "POST"`. -/
theorem useFetch_put_has_no_idempotency_key :
    (runFetch cfgPUT [.refetch]).requests.map
        (fun r => (r.method, lookupStr "Idempotency-Key" r.headers))
      = [(Method.PUT, none)] := by decide

/-- C2 (amended): a request issued by the hook carries an `Idempotency-Key`
header exactly when its method is POST, provided the caller did not supply
such a header; PUT and DELETE requests are not tagged. -/
theorem useFetch_idempotency_only_post (cfg : FetchConfig) (es : List FetchEvent)
    (huh : ∀ p ∈ cfg.options.headers, p.1 ≠ "Idempotency-Key") :
    ∀ r ∈ (runFetch cfg es).requests,
      ((lookupStr "Idempotency-Key" r.headers).isSome ↔ r.method = .POST) := by
  intro r hr
  obtain ⟨hm, i, hh⟩ := runFetch_requests_shape cfg es r hr
  rw [hh, hm]
  by_cases hp : cfg.options.method = .POST
  · rw [hp, lookup_buildHeaders_post]
    simp
  · rw [lookup_buildHeaders_not_post _ _ _ hp huh]
    simp [hp]

/-- C2 witness: for the POST instance with no caller headers, the issued
request does carry the key exactly as the amended claim states. -/
theorem useFetch_idempotency_only_post_witness :
    (∀ p ∈ cfgPOST.options.headers, p.1 ≠ "Idempotency-Key") ∧
    ∀ r ∈ (runFetch cfgPOST [.refetch]).requests,
      ((lookupStr "Idempotency-Key" r.headers).isSome ↔ r.method = .POST) :=
  ⟨by simp [cfgPOST], useFetch_idempotency_only_post cfgPOST [.refetch] (by simp [cfgPOST])⟩

/-- C5 counterexample: two invocations of the request execution with
identical URL, method and body (a retry via `refetch`) draw two successive
values from the `crypto.randomUUID()` stream, so their `Idempotency-Key`
headers differ whenever the stream does not repeat itself — here the two
requests carry keys "0" and "1". -/
theorem useFetch_idempotency_key_not_deterministic :
    (runFetch cfgPOST [.refetch, .refetch]).requests.map
        (fun r => (r.url, r.method, r.body, lookupStr "Idempotency-Key" r.headers))
      = [("/api/pay", Method.POST, some "1", some "0"),
         ("/api/pay", Method.POST, some "1", some "1")] ∧
    some ("0" : String) ≠ some "1" := by
  constructor
  · decide
  · decide

/-- C5 (amended): the key generation is not a deterministic function of the
logical request; each POST execution consumes the next fresh value of the
UUID stream, so in any trace the i-th POST request carries `uuids i` as its
`Idempotency-Key`, and repeated deliveries of the same logical request carry
the same key only if the UUID stream repeats a value. -/
theorem useFetch_fresh_key_per_invocation (cfg : FetchConfig) (es : List FetchEvent) :
    ((runFetch cfg es).requests.filter (fun r => decide (r.method = Method.POST))).map
        (fun r => lookupStr "Idempotency-Key" r.headers)
      = (List.range (runFetch cfg es).uuidCount).map (fun i => some (cfg.uuids i)) := by
  suffices h : ∀ s,
      ((s.requests.filter (fun r => decide (r.method = Method.POST))).map
          (fun r => lookupStr "Idempotency-Key" r.headers)
        = (List.range s.uuidCount).map (fun i => some (cfg.uuids i))) →
      (((es.foldl (stepFetch cfg) s).requests.filter
          (fun r => decide (r.method = Method.POST))).map
          (fun r => lookupStr "Idempotency-Key" r.headers)
        = (List.range (es.foldl (stepFetch cfg) s).uuidCount).map
            (fun i => some (cfg.uuids i))) by
    exact h initState (by simp [initState])
  induction es with
  | nil => intro s hs; exact hs
  | cons e es ih =>
      intro s hs
      refine ih _ ?_
      have hstart :
          (((startFetch cfg s).requests.filter (fun r => decide (r.method = Method.POST))).map
              (fun r => lookupStr "Idempotency-Key" r.headers)
            = (List.range (startFetch cfg s).uuidCount).map (fun i => some (cfg.uuids i))) := by
        rw [startFetch_requests, startFetch_uuidCount]
        by_cases hp : cfg.options.method = Method.POST
        · rw [if_pos hp, List.filter_append, List.map_append, List.range_succ,
            List.map_append, hs]
          simp [List.filter_cons, hp, lookup_buildHeaders_post]
        · rw [if_neg hp, List.filter_append, List.map_append, hs]
          simp [hp]
      cases e with
      | mount =>
          simp only [stepFetch]
          by_cases him : cfg.options.immediate ≠ some false
          · rw [if_pos him]; exact hstart
          · rw [if_neg him]; exact hs
      | refetch => exact hstart
      | complete cid o =>
          simp only [stepFetch]
          rw [completeFetch_requests, completeFetch_uuidCount]
          exact hs
      | unmount =>
          simp only [stepFetch]
          cases hac : s.activeController with
          | none => exact hs
          | some a => exact hs

theorem mem_of_lookupStr (k v : String) (l : List (String × String))
    (h : lookupStr k l = some v) : (k, v) ∈ l := by
  induction l with
  | nil => simp [lookupStr] at h
  | cons p rest ih =>
      simp only [lookupStr] at h
      by_cases hp : p.1 = k
      · rw [if_pos hp] at h
        have hpv : p = (k, v) := by
          cases p
          simp only [Option.some.injEq] at h
          simp_all
        rw [← hpv]
        exact List.mem_cons_self p rest
      · rw [if_neg hp] at h
        exact List.mem_cons_of_mem _ (ih h)

theorem lookupStr_of_mem_nodup (k v : String) (l : List (String × String))
    (hnd : (l.map Prod.fst).Nodup) (h : (k, v) ∈ l) : lookupStr k l = some v := by
  induction l with
  | nil => simp at h
  | cons p rest ih =>
      simp only [List.map_cons, List.nodup_cons] at hnd
      rcases List.mem_cons.1 h with h | h
      · rw [← h]
        simp [lookupStr]
      · have hp : ¬ (p.1 = k) := by
          intro hh
          refine hnd.1 ?_
          rw [hh]
          exact List.mem_map_of_mem Prod.fst h
        simp only [lookupStr, hp, if_false]
        exact ih hnd.2 h

theorem lookupStr_eq_none_iff (k : String) (l : List (String × String)) :
    lookupStr k l = none ↔ k ∉ l.map Prod.fst := by
  induction l with
  | nil => simp [lookupStr]
  | cons p rest ih =>
      simp only [lookupStr, List.map_cons, List.mem_cons]
      by_cases hp : p.1 = k
      · simp [hp]
      · rw [if_neg hp, ih]
        constructor
        · intro hnm hor
          rcases hor with h | h
          · exact hp h.symm
          · exact hnm h
        · intro hno h
          exact hno (Or.inr h)

theorem lookupStr_perm (l1 l2 : List (String × String)) (hp : l1.Perm l2)
    (hnd : (l1.map Prod.fst).Nodup) (k : String) :
    lookupStr k l1 = lookupStr k l2 := by
  have hnd2 : (l2.map Prod.fst).Nodup := ((hp.map Prod.fst).nodup_iff).mp hnd
  cases h1 : lookupStr k l1 with
  | some v =>
      exact (lookupStr_of_mem_nodup k v l2 hnd2
        (hp.mem_iff.mp (mem_of_lookupStr k v l1 h1))).symm
  | none =>
      rw [lookupStr_eq_none_iff k l1] at h1
      have h2 : k ∉ l2.map Prod.fst := fun hm => h1 ((hp.map Prod.fst).mem_iff.mpr hm)
      exact ((lookupStr_eq_none_iff k l2).mpr h2).symm

theorem queryKeys_sorted (ps : List (String × String)) :
    List.Sorted (fun a b : String => a ≤ b) (queryKeys ps) :=
  List.sorted_insertionSort _ _

theorem queryKeys_perm_eq (ps1 ps2 : List (String × String)) (hp : ps1.Perm ps2) :
    queryKeys ps1 = queryKeys ps2 :=
  List.eq_of_perm_of_sorted
    ((List.perm_insertionSort _ _).trans
      ((hp.map Prod.fst).trans (List.perm_insertionSort _ _).symm))
    (queryKeys_sorted ps1) (queryKeys_sorted ps2)

/-- C7: the query string enumerates the params record's keys in ascending
sorted order, so two records holding the same key-to-value entries (in any
insertion order) yield the same query string, and a null/absent params
record yields exactly `baseUrl` with no question mark appended. -/
theorem useFetch_query_canonical (baseUrl : String) (ps1 ps2 : List (String × String))
    (hperm : ps1.Perm ps2) (hnd : (ps1.map Prod.fst).Nodup) :
    List.Sorted (fun a b : String => a ≤ b) (queryKeys ps1) ∧
    queryString (some ps1) = queryString (some ps2) ∧
    finalUrl baseUrl (queryString none) = baseUrl := by
  refine ⟨queryKeys_sorted ps1, ?_, ?_⟩
  · unfold queryString
    dsimp only
    rw [queryKeys_perm_eq ps1 ps2 hperm]
    have hf : (fun k => formEncode k ++ "=" ++ formEncode ((lookupStr k ps1).getD ""))
        = (fun k => formEncode k ++ "=" ++ formEncode ((lookupStr k ps2).getD "")) := by
      funext k
      rw [lookupStr_perm ps1 ps2 hperm hnd k]
    rw [hf]
  · simp [queryString, finalUrl]

/-- C7 witness: two concrete two-entry records with the same entries in
opposite insertion orders; the hypotheses hold by evaluation and the
conclusions follow from the theorem. -/
theorem useFetch_query_canonical_witness :
    ([("b", "2"), ("a", "1")] : List (String × String)).Perm [("a", "1"), ("b", "2")] ∧
    (([("b", "2"), ("a", "1")] : List (String × String)).map Prod.fst).Nodup ∧
    (List.Sorted (fun a b : String => a ≤ b) (queryKeys [("b", "2"), ("a", "1")]) ∧
      queryString (some [("b", "2"), ("a", "1")])
        = queryString (some [("a", "1"), ("b", "2")]) ∧
      finalUrl "/api/transactions" (queryString none) = "/api/transactions") :=
  ⟨by decide, by decide,
    useFetch_query_canonical "/api/transactions" _ _ (by decide) (by decide)⟩

/-- C8 witness: for the GET instance (with `immediate` omitted) the mount
effect issues a request, and after a refetch the unmount cleanup aborts
controller 0 and clears the ref. -/
theorem useFetch_mount_refetch_unmount_witness :
    cfgGET.options.immediate ≠ some false ∧
    (stepFetch cfgGET (runFetch cfgGET []) .mount).requests.length
        = (runFetch cfgGET []).requests.length + 1 ∧
    (runFetch cfgGET [.refetch]).activeController = some 0 ∧
    (0 ∈ (stepFetch cfgGET (runFetch cfgGET [.refetch]) .unmount).aborted ∧
      (stepFetch cfgGET (runFetch cfgGET [.refetch]) .unmount).activeController = none) :=
  ⟨by decide,
    (useFetch_mount_refetch_unmount cfgGET []).1.mpr (by decide),
    by decide,
    (useFetch_mount_refetch_unmount cfgGET [.refetch]).2.2 0 (by decide)⟩

end UseFetch

namespace UseThrottle

variable {V : Type}

theorem runThrottle_chain (interval : Nat) :
    ∀ (es : List (ThrottleEvent V)) (s : ThrottleState V) (t : Nat),
      throttleValid interval s t es = true →
      s.lastUpdated ≤ t →
      (∀ ft v, s.pending = some (ft, v) → s.lastUpdated + interval ≤ ft) →
      List.Chain' (fun a b => a + interval ≤ b) (runThrottle interval s es).2 ∧
      (∀ u ∈ (runThrottle interval s es).2.head?, s.lastUpdated + interval ≤ u) := by
  intro es
  induction es with
  | nil =>
      intro s t _ _ _
      exact ⟨List.chain'_nil, by simp [runThrottle]⟩
  | cons e es ih =>
      intro s t hv hle hpend
      cases e with
      | valueChange now value =>
          simp only [throttleValid, Bool.and_eq_true, decide_eq_true_eq] at hv
          obtain ⟨htn, hv⟩ := hv
          by_cases hif : interval ≤ now - s.lastUpdated
          · have hstep : stepThrottle interval s (.valueChange now value)
                = { throttledValue := value, lastUpdated := now, pending := none } := by
              simp [stepThrottle, hif]
            rw [hstep] at hv
            have hrun : (runThrottle interval s (.valueChange now value :: es)).2
                = now :: (runThrottle interval
                    { throttledValue := value, lastUpdated := now, pending := none } es).2 := by
              simp [runThrottle, hstep, hif]
            rw [hrun]
            obtain ⟨hch, hhd⟩ := ih _ now hv (le_refl now) (by simp)
            refine ⟨?_, ?_⟩
            · rw [List.chain'_cons']
              exact ⟨hhd, hch⟩
            · intro u hu
              simp only [List.head?_cons, Option.mem_def, Option.some.injEq] at hu
              omega
          · have hstep : stepThrottle interval s (.valueChange now value)
                = { s with pending := some (now + (interval - (now - s.lastUpdated)), value) } := by
              simp [stepThrottle, hif]
            rw [hstep] at hv
            have hrun : (runThrottle interval s (.valueChange now value :: es)).2
                = (runThrottle interval
                    { s with pending := some (now + (interval - (now - s.lastUpdated)), value) }
                    es).2 := by
              simp [runThrottle, hstep, hif]
            rw [hrun]
            refine ih _ now hv (le_trans hle htn) ?_
            intro ft v hp
            simp only [Option.some.injEq, Prod.mk.injEq] at hp
            show s.lastUpdated + interval ≤ ft
            omega
      | timerFire now =>
          cases hp : s.pending with
          | none =>
              simp only [throttleValid, hp, Bool.and_eq_true, Bool.and_eq_false_iff] at hv
              simp at hv
          | some p =>
              obtain ⟨ft, vcap⟩ := p
              simp only [throttleValid, hp, Bool.and_eq_true, decide_eq_true_eq] at hv
              obtain ⟨⟨htn, hft⟩, hv⟩ := hv
              have hstep : stepThrottle interval s (.timerFire now)
                  = { throttledValue := vcap, lastUpdated := now, pending := none } := by
                simp [stepThrottle, hp]
              rw [hstep] at hv
              have hrun : (runThrottle interval s (.timerFire now :: es)).2
                  = now :: (runThrottle interval
                      { throttledValue := vcap, lastUpdated := now, pending := none } es).2 := by
                simp [runThrottle, hstep, hp]
              rw [hrun]
              obtain ⟨hch, hhd⟩ := ih _ now hv (le_refl now) (by simp)
              have hlu : s.lastUpdated + interval ≤ now :=
                le_trans (hpend ft vcap hp) hft
              refine ⟨?_, ?_⟩
              · rw [List.chain'_cons']
                exact ⟨hhd, hch⟩
              · intro u hu
                simp only [List.head?_cons, Option.mem_def, Option.some.injEq] at hu
                omega

/-- C3: along every admissible trace (monotone clock, timers firing only
while scheduled and no earlier than their delay) the throttled value is
updated at most once per interval: between any two consecutive
`setThrottledValue` calls at least `interval` milliseconds elapse, no matter
how often the input value changes. -/
theorem useThrottle_rate_limited {V : Type} (interval mountTime : Nat) (v0 : V)
    (es : List (ThrottleEvent V))
    (h : throttleValid interval (initThrottle mountTime v0) mountTime es = true) :
    List.Chain' (fun a b => a + interval ≤ b)
      (runThrottle interval (initThrottle mountTime v0) es).2 :=
  (runThrottle_chain interval es (initThrottle mountTime v0) mountTime h
    (le_refl mountTime) (by simp [initThrottle])).1

/-- C3 witness: a concrete admissible trace with interval 10 — a change at
time 3 (throttled, timer due at 10), the timer firing at 15, and a change at
time 30 (past the interval, applied at once); the update times 15 and 30 are
at least one interval apart. -/
theorem useThrottle_rate_limited_witness :
    throttleValid 10 (initThrottle 0 "a") 0
        [.valueChange 3 "b", .timerFire 15, .valueChange 30 "c"] = true ∧
    List.Chain' (fun a b => a + 10 ≤ b)
      (runThrottle 10 (initThrottle 0 "a")
        [.valueChange 3 "b", .timerFire 15, .valueChange 30 "c"]).2 :=
  ⟨by decide, useThrottle_rate_limited 10 0 "a" _ (by decide)⟩

end UseThrottle

namespace UseDebounce

variable {V : Type}

theorem debounceValid_inputs_ge (delay : Nat) :
    ∀ (es : List (DebounceEvent V)) (s : DebounceState V) (t : Nat),
      debounceValid delay s t es = true →
      ∀ p ∈ inputsOf es, t ≤ p.1 := by
  intro es
  induction es with
  | nil => intro s t _ p hp; simp [inputsOf] at hp
  | cons e es ih =>
      intro s t hv p hp
      cases e with
      | valueChange now value =>
          simp only [debounceValid, Bool.and_eq_true, decide_eq_true_eq] at hv
          obtain ⟨htn, hv⟩ := hv
          simp only [inputsOf, List.mem_cons] at hp
          rcases hp with hp | hp
          · rw [hp]; exact htn
          · exact le_trans htn (ih _ now hv p hp)
      | timerFire now =>
          cases hpd : s.pending with
          | none =>
              simp only [debounceValid, hpd, Bool.and_eq_true] at hv
              simp at hv
          | some q =>
              obtain ⟨t0, vcap⟩ := q
              simp only [debounceValid, hpd, Bool.and_eq_true, decide_eq_true_eq] at hv
              obtain ⟨⟨htn, _⟩, hv⟩ := hv
              simp only [inputsOf] at hp
              exact le_trans htn (ih _ now hv p hp)

theorem runDebounce_quiet_aux (delay : Nat) :
    ∀ (es : List (DebounceEvent V)) (s : DebounceState V) (t : Nat)
      (past : List (Nat × V)),
      debounceValid delay s t es = true →
      (∀ p ∈ past, p.1 ≤ t) →
      (∀ t0 v, s.pending = some (t0, v) →
        (t0, v) ∈ past ∧ (∀ p ∈ past, p.1 ≤ t0)) →
      ∀ u ∈ (runDebounce s es).2,
        u.1 + delay ≤ u.2.1 ∧ (u.1, u.2.2) ∈ past ++ inputsOf es ∧
        ∀ p ∈ past ++ inputsOf es, p.1 ≤ u.1 ∨ u.2.1 ≤ p.1 := by
  intro es
  induction es with
  | nil => intro s t past _ _ _ u hu; simp [runDebounce] at hu
  | cons e es ih =>
      intro s t past hv hpast hpend
      cases e with
      | valueChange now value =>
          simp only [debounceValid, Bool.and_eq_true, decide_eq_true_eq] at hv
          obtain ⟨htn, hv⟩ := hv
          have hstep : stepDebounce s (.valueChange now value)
              = { s with pending := some (now, value) } := rfl
          have hrun : (runDebounce s (.valueChange now value :: es)).2
              = (runDebounce { s with pending := some (now, value) } es).2 := by
            simp [runDebounce, hstep]
          rw [hrun]
          intro u hu
          have hpast' : ∀ p ∈ past ++ [(now, value)], p.1 ≤ now := by
            intro p hp
            rcases List.mem_append.1 hp with hp | hp
            · exact le_trans (hpast p hp) htn
            · simp only [List.mem_singleton] at hp; rw [hp]
          have hpend' : ∀ t0 v, ({ s with pending := some (now, value) } :
                DebounceState V).pending = some (t0, v) →
              (t0, v) ∈ past ++ [(now, value)] ∧
                (∀ p ∈ past ++ [(now, value)], p.1 ≤ t0) := by
            intro t0 v hp
            simp only [Option.some.injEq, Prod.mk.injEq] at hp
            obtain ⟨rfl, rfl⟩ := hp
            exact ⟨List.mem_append.2 (Or.inr (by simp)), hpast'⟩
          have := ih _ now (past ++ [(now, value)]) hv hpast' hpend' u hu
          simpa only [inputsOf, List.append_assoc, List.singleton_append] using this
      | timerFire now =>
          cases hpd : s.pending with
          | none =>
              simp only [debounceValid, hpd, Bool.and_eq_true] at hv
              simp at hv
          | some q =>
              obtain ⟨t0, vcap⟩ := q
              simp only [debounceValid, hpd, Bool.and_eq_true, decide_eq_true_eq] at hv
              obtain ⟨⟨htn, hdue⟩, hv⟩ := hv
              obtain ⟨hmem, hbefore⟩ := hpend t0 vcap hpd
              have hstep : stepDebounce s (.timerFire now)
                  = { debouncedValue := vcap, pending := none } := by
                simp [stepDebounce, hpd]
              rw [hstep] at hv
              have hrun : (runDebounce s (.timerFire now :: es)).2
                  = (t0, now, vcap) :: (runDebounce
                      ({ debouncedValue := vcap, pending := none } : DebounceState V) es).2 := by
                simp [runDebounce, hstep, hpd]
              rw [hrun]
              intro u hu
              simp only [List.mem_cons] at hu
              rcases hu with hu | hu
              · subst hu
                refine ⟨hdue, List.mem_append.2 (Or.inl hmem), ?_⟩
                intro p hp
                simp only [inputsOf] at hp
                rcases List.mem_append.1 hp with hp | hp
                · exact Or.inl (hbefore p hp)
                · exact Or.inr (debounceValid_inputs_ge delay es _ now hv p hp)
              · have hpast' : ∀ p ∈ past, p.1 ≤ now := fun p hp =>
                  le_trans (hpast p hp) htn
                have hpend' : ∀ t0' v',
                    ({ debouncedValue := vcap, pending := none } :
                      DebounceState V).pending = some (t0', v') →
                    (t0', v') ∈ past ∧ (∀ p ∈ past, p.1 ≤ t0') := by
                  intro t0' v' hp; simp at hp
                have := ih _ now past hv hpast' hpend' u hu
                simpa only [inputsOf] using this

/-- C4 (spec-modelled): along every admissible trace the debounced value only
updates after a quiet period: every update propagates the value of some
input, at least `delay` milliseconds after that input, and no other input
falls strictly between that input and the update; moreover every new input
overwrites the pending wait with a fresh one starting at the input's time
(the wait restarts). -/
theorem useDebounce_quiet_period {V : Type} (delay : Nat) (v0 : V) (t0 : Nat)
    (es : List (DebounceEvent V))
    (h : debounceValid delay (initDebounce v0) t0 es = true) :
    (∀ u ∈ (runDebounce (initDebounce v0) es).2,
        u.1 + delay ≤ u.2.1 ∧ (u.1, u.2.2) ∈ inputsOf es ∧
        ∀ p ∈ inputsOf es, p.1 ≤ u.1 ∨ u.2.1 ≤ p.1) ∧
    (∀ (s : DebounceState V) (now : Nat) (v : V),
        (stepDebounce s (.valueChange now v)).pending = some (now, v)) := by
  refine ⟨?_, fun s now v => rfl⟩
  intro u hu
  have := runDebounce_quiet_aux delay es (initDebounce v0) t0 [] h
    (by simp) (by simp [initDebounce]) u hu
  simpa using this

/-- C4 witness: with delay 5, inputs at times 1 and 3 and the timer firing at
time 8, the only update is (scheduled by the input at 3, applied at 8,
value "c"): it comes 5ms after its input, that input is in the trace, and no
input falls strictly between times 3 and 8. -/
theorem useDebounce_quiet_period_witness :
    debounceValid 5 (initDebounce "a") 0
        [.valueChange 1 "b", .valueChange 3 "c", .timerFire 8] = true ∧
    ((∀ u ∈ (runDebounce (initDebounce "a")
          [.valueChange 1 "b", .valueChange 3 "c", .timerFire 8]).2,
        u.1 + 5 ≤ u.2.1 ∧ (u.1, u.2.2) ∈ inputsOf
            [DebounceEvent.valueChange 1 "b", .valueChange 3 "c", .timerFire 8] ∧
        ∀ p ∈ inputsOf
            [DebounceEvent.valueChange 1 "b", .valueChange 3 "c", .timerFire 8],
          p.1 ≤ u.1 ∨ u.2.1 ≤ p.1) ∧
      (∀ (s : DebounceState String) (now : Nat) (v : String),
        (stepDebounce s (.valueChange now v)).pending = some (now, v))) :=
  ⟨by decide, useDebounce_quiet_period 5 "a" 0 _ (by decide)⟩

end UseDebounce
